import Mathlib

/-!
Verification of the mcp2 gateway core: the policy engine (profile-based
allow/deny filtering with glob patterns), the upstream connection manager,
the aggregating hub router and the isolated per-server proxy.

Strings are modelled as lists of characters (`Str`).  Go's byte-wise string
operations coincide with character-wise operations on this model for the
comparisons the code performs.  Fallible Go calls are modelled with
`Except`; upstream sessions are records of pure functions giving the
observable reply of each MCP call, and invocation handlers additionally
return the list of backend ids they forwarded to, so that "the request was
never forwarded" is expressible.
-/

namespace Mcp2

/-- Character-list model of a Go string. -/
abbrev Str := List Char

/-- Model of a Go `error`: its message text. -/
abbrev GoError := Str

deriving instance DecidableEq for Except

/-- Embedding of `strings.HasPrefix(s, pre)`. -/
def hasPrefix : Str → Str → Bool
  | _, [] => true
  | [], _ :: _ => false
  | c :: s, d :: pre => c = d && hasPrefix s pre

/-- Embedding of `strings.HasSuffix(s, suf)`. -/
def hasSuffix (s suf : Str) : Bool :=
  hasPrefix s.reverse suf.reverse

/-- Embedding of `strings.Contains(s, sub)`. -/
def containsSub : Str → Str → Bool
  | s, sub =>
    if hasPrefix s sub then true
    else
      match s with
      | [] => false
      | _ :: rest => containsSub rest sub

/-- Embedding of `strings.TrimSuffix(s, suf)`: drops one trailing
occurrence of `suf` when present. -/
def trimSuffix (s suf : Str) : Str :=
  if hasSuffix s suf then s.take (s.length - suf.length) else s

/-- Embedding of `strings.TrimPrefix(s, pre)`: drops one leading
occurrence of `pre` when present. -/
def trimPrefixStr (s pre : Str) : Str :=
  if hasPrefix s pre then s.drop pre.length else s

/-- Embedding of `strings.SplitN(s, sep, 2)` in the form used by the code:
`some (before, after)` split at the first occurrence of `sep`, `none` when
`sep` does not occur (Go then returns a single part, which the callers
treat as the malformed-reference case). -/
def splitOnce : Str → Str → Option (Str × Str)
  | s, sep =>
    if hasPrefix s sep then some ([], s.drop sep.length)
    else
      match s with
      | [] => none
      | c :: rest => (splitOnce rest sep).map (fun p => (c :: p.1, p.2))

/-!
Embedding of Go's `path/filepath.Match` (non-Windows build), the
single-segment glob matcher `matchPattern` delegates to for patterns that
contain `*` but not `**`.  `Match` is translated function by function from
`path/filepath/match.go`: `scanChunk` (split into `stripStars` for the
leading-star loop and `scanBody` for the chunk scan), `getEsc`,
`matchChunk` (with its `failed` flag, so syntax errors are still detected
on a failed match) and the main `Match` loop (`goMatchAux`, with the
star-skip inner loop as `starSkip` and the trailing syntactic validation
as `syntaxCheck`).  `ErrBadPattern` is modelled as `Except.error ()`.
The invalid-UTF-8 rune check of `getEsc` has no counterpart here because
the character-list model has no encoding errors.
-/

/-- Leading-`*` loop of `scanChunk`: strips the leading stars of the
pattern, reporting whether there was at least one. -/
def stripStars : Str → Bool × Str
  | [] => (false, [])
  | c :: rest => if c = '*' then (true, (stripStars rest).2) else (false, c :: rest)

/-- Scan loop of `scanChunk`: cuts the pattern at the next `*` that is not
inside a bracket range, with `\\` escaping the following character. -/
def scanBody (inrange : Bool) : Str → Str × Str
  | [] => ([], [])
  | c :: rest =>
    if c = '\\' then
      match rest with
      | [] => ([c], [])
      | d :: rest2 =>
        let p := scanBody inrange rest2
        (c :: d :: p.1, p.2)
    else if c = '[' then
      let p := scanBody true rest
      (c :: p.1, p.2)
    else if c = ']' then
      let p := scanBody false rest
      (c :: p.1, p.2)
    else if c = '*' then
      if inrange then
        let p := scanBody inrange rest
        (c :: p.1, p.2)
      else ([], c :: rest)
    else
      let p := scanBody inrange rest
      (c :: p.1, p.2)

/-- Embedding of `scanChunk`: `(star, chunk, rest)`. -/
def scanChunk (pattern : Str) : Bool × Str × Str :=
  let s1 := stripStars pattern
  let s2 := scanBody false s1.2
  (s1.1, s2.1, s2.2)

/-- Embedding of `getEsc`: reads one (possibly escaped) range endpoint of
a character class, failing on `-`, `]`, a dangling escape, or a class that
ends before its `]`. -/
def getEsc : Str → Except Unit (Char × Str)
  | [] => .error ()
  | c :: rest =>
    if c = '-' ∨ c = ']' then .error ()
    else if c = '\\' then
      match rest with
      | [] => .error ()
      | d :: rest2 => if rest2 = [] then .error () else .ok (d, rest2)
    else if rest = [] then .error () else .ok (c, rest)

theorem getEsc_cons (a : Char) (rest : Str) :
    getEsc (a :: rest) =
      (if a = '-' ∨ a = ']' then .error ()
       else if a = '\\' then
         match rest with
         | [] => .error ()
         | d :: rest2 => if rest2 = [] then .error () else .ok (d, rest2)
       else if rest = [] then .error () else .ok (a, rest)) := rfl

theorem getEsc_length {l : Str} {c : Char} {l' : Str} (h : getEsc l = .ok (c, l')) :
    l'.length < l.length := by
  match l with
  | [] => simp [getEsc] at h
  | a :: rest =>
    rw [getEsc_cons] at h
    by_cases h1 : a = '-' ∨ a = ']'
    · simp [h1] at h
    · rw [if_neg h1] at h
      by_cases h2 : a = '\\'
      · rw [if_pos h2] at h
        match rest with
        | [] => simp at h
        | d :: rest2 =>
          by_cases h3 : rest2 = []
          · simp [h3] at h
          · simp only [if_neg h3, Except.ok.injEq, Prod.mk.injEq] at h
            obtain ⟨rfl, rfl⟩ := h
            simp only [List.length_cons]
            omega
      · rw [if_neg h2] at h
        by_cases h3 : rest = []
        · simp [h3] at h
        · simp only [if_neg h3, Except.ok.injEq, Prod.mk.injEq] at h
          obtain ⟨rfl, rfl⟩ := h
          simp

/-- The optional range upper bound: `if chunk[0] == '-'` read another
endpoint, else the range is the single endpoint `lo`. -/
def lohi (lo : Char) (c1 : Str) : Except Unit (Char × Str) :=
  match c1 with
  | '-' :: rest => getEsc rest
  | _ => .ok (lo, c1)

theorem lohi_length {lo : Char} {c1 : Str} {hi : Char} {c2 : Str}
    (h : lohi lo c1 = .ok (hi, c2)) : c2.length ≤ c1.length := by
  unfold lohi at h
  split at h
  · have := getEsc_length h
    simp at this ⊢
    omega
  · obtain ⟨rfl, rfl⟩ := by simpa using h
    exact Nat.le_refl _

/-- Range-parsing loop of `matchChunk`'s character-class case: folds the
membership test for `r` over every `lo-hi` range until the closing `]`. -/
def parseRanges (r : Char) (mtch : Bool) (nrange : Nat) (chunk : Str) :
    Except Unit (Bool × Str) :=
  if chunk.head? = some ']' ∧ 0 < nrange then .ok (mtch, chunk.tail)
  else
    match h1 : getEsc chunk with
    | .error _ => .error ()
    | .ok (lo, c1) =>
      match h2 : lohi lo c1 with
      | .error _ => .error ()
      | .ok (hi, c2) =>
        parseRanges r (mtch || decide (lo ≤ r ∧ r ≤ hi)) (nrange + 1) c2
termination_by chunk.length
decreasing_by
  have ha := getEsc_length h1
  have hb := lohi_length h2
  omega

theorem parseRanges_length_fuel : ∀ (fuel : Nat) (ck : Str), ck.length ≤ fuel →
    ∀ {r : Char} {m : Bool} {k : Nat} {m' : Bool} {ck' : Str},
    parseRanges r m k ck = .ok (m', ck') → ck'.length < ck.length := by
  intro fuel
  induction fuel with
  | zero =>
    intro ck hck r m k m' ck' h
    match ck, hck with
    | [], _ =>
      rw [parseRanges] at h
      simp [getEsc] at h
  | succ n ih =>
    intro ck hck r m k m' ck' h
    rw [parseRanges] at h
    split at h
    · rename_i hc
      simp only [Except.ok.injEq, Prod.mk.injEq] at h
      obtain ⟨rfl, rfl⟩ := h
      match ck, hc with
      | c :: t, hc => simp
    · split at h
      · exact absurd h (by simp)
      · split at h
        · exact absurd h (by simp)
        · rename_i lo c1 h1 hi c2 h2
          have ha := getEsc_length h1
          have hb := lohi_length h2
          have hc := ih c2 (by omega) h
          omega

theorem parseRanges_length {r : Char} {m : Bool} {k : Nat} {ck : Str} {m' : Bool}
    {ck' : Str} (h : parseRanges r m k ck = .ok (m', ck')) : ck'.length < ck.length :=
  parseRanges_length_fuel ck.length ck (Nat.le_refl _) h

/-- The possibly-negated class head: `^` right after `[` negates the
class. -/
def negSplit (rest : Str) : Bool × Str :=
  match rest with
  | '^' :: rest1 => (true, rest1)
  | _ => (false, rest)

theorem negSplit_length (rest : Str) : (negSplit rest).2.length ≤ rest.length := by
  unfold negSplit
  split <;> simp

/-- Embedding of `matchChunk` with its `failed` flag: `ok (some t)` is a
match with remainder `t`, `ok none` a failed match with valid syntax, and
`error` a malformed pattern.  `s` is only consumed while the match has not
failed, exactly as in the Go code. -/
def matchChunkAux (failed : Bool) (chunk s : Str) : Except Unit (Option Str) :=
  match chunk with
  | [] => if failed then .ok none else .ok (some s)
  | c :: rest =>
    let failed1 := failed || s.isEmpty
    if c = '[' then
      let r : Char := if failed1 then Char.ofNat 0 else s.headD (Char.ofNat 0)
      let s1 := if failed1 then s else s.tail
      match hpr : parseRanges r false 0 (negSplit rest).2 with
      | .error _ => .error ()
      | .ok (mtch, chunk2) =>
        matchChunkAux (failed1 || (mtch == (negSplit rest).1)) chunk2 s1
    else if c = '?' then
      let failed2 := failed1 || decide (s.headD (Char.ofNat 0) = '/')
      let s1 := if failed1 then s else s.tail
      matchChunkAux failed2 rest s1
    else if c = '\\' then
      match rest with
      | [] => .error ()
      | d :: rest2 =>
        let failed2 := failed1 || decide (¬ s.headD (Char.ofNat 0) = d)
        let s1 := if failed1 then s else s.tail
        matchChunkAux failed2 rest2 s1
    else
      let failed2 := failed1 || decide (¬ s.headD (Char.ofNat 0) = c)
      let s1 := if failed1 then s else s.tail
      matchChunkAux failed2 rest s1
termination_by chunk.length
decreasing_by
  · have ha := parseRanges_length hpr
    have hb := negSplit_length rest
    simp only [List.length_cons]
    omega
  · simp only [List.length_cons]
    omega
  · simp only [List.length_cons]
    omega
  · simp only [List.length_cons]
    omega

/-- Embedding of `matchChunk(chunk, s)`. -/
def matchChunk (chunk s : Str) : Except Unit (Option Str) :=
  matchChunkAux false chunk s

/-- Star-skip inner loop of `Match`: with a star before `chunk`, try the
chunk at each later position of `name`, never skipping over `/`; on the
last chunk a match must exhaust the name. -/
def starSkip (chunk rest : Str) : Str → Except Unit (Option Str)
  | [] => .ok none
  | c :: name1 =>
    if c = '/' then .ok none
    else
      match matchChunk chunk name1 with
      | .error _ => .error ()
      | .ok (some t) =>
        if rest = [] ∧ ¬ t = [] then starSkip chunk rest name1
        else .ok (some t)
      | .ok none => starSkip chunk rest name1

theorem scanBody_cons (inr : Bool) (c : Char) (rest : Str) :
    scanBody inr (c :: rest) =
      (if c = '\\' then
        match rest with
        | [] => ([c], [])
        | d :: rest2 =>
          let p := scanBody inr rest2
          (c :: d :: p.1, p.2)
      else if c = '[' then
        let p := scanBody true rest
        (c :: p.1, p.2)
      else if c = ']' then
        let p := scanBody false rest
        (c :: p.1, p.2)
      else if c = '*' then
        if inr then
          let p := scanBody inr rest
          (c :: p.1, p.2)
        else ([], c :: rest)
      else
        let p := scanBody inr rest
        (c :: p.1, p.2)) := by
  rw [scanBody.eq_def]
  rfl

theorem scanBody_append_fuel : ∀ (fuel : Nat) (p : Str), p.length ≤ fuel →
    ∀ inr, (scanBody inr p).1 ++ (scanBody inr p).2 = p := by
  intro fuel
  induction fuel with
  | zero =>
    intro p hp inr
    match p, hp with
    | [], _ => simp [scanBody]
  | succ n ih =>
    intro p hp inr
    match p with
    | [] => simp [scanBody]
    | c :: rest =>
      simp only [List.length_cons] at hp
      rw [scanBody_cons]
      by_cases h1 : c = '\\'
      · rw [if_pos h1]
        match rest with
        | [] => simp
        | d :: rest2 =>
          simp only [List.length_cons] at hp
          have := ih rest2 (by omega) inr
          simp [this]
      · rw [if_neg h1]
        by_cases h2 : c = '['
        · have := ih rest (by omega) true
          simp [h2, this]
        · rw [if_neg h2]
          by_cases h3 : c = ']'
          · have := ih rest (by omega) false
            simp [h3, this]
          · rw [if_neg h3]
            by_cases h4 : c = '*'
            · rw [if_pos h4]
              by_cases h5 : inr = true
              all_goals {
                have := ih rest (by omega) inr
                first
                  | (rw [if_pos h5]; simpa using this)
                  | (rw [if_neg h5]; simp)
              }
            · rw [if_neg h4]
              have := ih rest (by omega) inr
              simpa using this

theorem scanBody_append (inr : Bool) (p : Str) :
    (scanBody inr p).1 ++ (scanBody inr p).2 = p :=
  scanBody_append_fuel p.length p (Nat.le_refl _) inr

theorem stripStars_length (p : Str) : (stripStars p).2.length ≤ p.length := by
  induction p with
  | nil => simp [stripStars]
  | cons c rest ih =>
    simp only [stripStars]
    split
    · simp only [List.length_cons]
      omega
    · simp

theorem stripStars_head (p : Str) : ¬ (stripStars p).2.head? = some '*' := by
  induction p with
  | nil => simp [stripStars]
  | cons c rest ih =>
    simp only [stripStars]
    split
    · exact ih
    · rename_i h
      simp only [List.head?_cons, Option.some.injEq]
      intro he
      exact h he

theorem stripStars_lt (p : Str) (h : (stripStars p).1 = true) :
    (stripStars p).2.length < p.length := by
  match p with
  | [] => simp [stripStars] at h
  | c :: rest =>
    simp only [stripStars] at h ⊢
    split at h
    · rename_i hc
      rw [if_pos hc]
      simp only [List.length_cons]
      have := stripStars_length rest
      omega
    · simp at h

theorem stripStars_eq (p : Str) (h : (stripStars p).1 = false) :
    (stripStars p).2 = p := by
  match p with
  | [] => simp [stripStars]
  | c :: rest =>
    simp only [stripStars] at h ⊢
    split at h
    · simp at h
    · rename_i hc
      rw [if_neg hc]

theorem scanBody_ne_nil (inr : Bool) (p : Str) (hp : ¬ p = [])
    (hh : ¬ p.head? = some '*') : ¬ (scanBody inr p).1 = [] := by
  match p with
  | c :: rest =>
    simp only [List.head?_cons, Option.some.injEq] at hh
    rw [scanBody_cons]
    by_cases h1 : c = '\\'
    · rw [if_pos h1]
      match rest with
      | [] => simp
      | d :: rest2 => simp
    · rw [if_neg h1]
      by_cases h2 : c = '['
      · simp [h2]
      · rw [if_neg h2]
        by_cases h3 : c = ']'
        · simp [h3]
        · rw [if_neg h3]
          rw [if_neg hh]
          simp

theorem scanChunk_length (p : Str) (hp : ¬ p = []) :
    (scanChunk p).2.2.length < p.length := by
  have hgoal : (scanChunk p).2.2 = (scanBody false (stripStars p).2).2 := rfl
  rw [hgoal]
  have happ := scanBody_append false (stripStars p).2
  have hlen : (scanBody false (stripStars p).2).1.length
      + (scanBody false (stripStars p).2).2.length = (stripStars p).2.length := by
    have := congrArg List.length happ
    simpa using this
  rcases hb : (stripStars p).1 with _ | _
  · have heq := stripStars_eq p hb
    have hhead := stripStars_head p
    rw [heq] at hhead hlen ⊢
    have hne := scanBody_ne_nil false p hp hhead
    have hpos : 0 < (scanBody false p).1.length := by
      cases hcc : (scanBody false p).1
      · exact absurd hcc hne
      · simp
    omega
  · have hlt := stripStars_lt p hb
    omega

/-- Trailing syntactic validation of `Match`: before returning a
no-error `false`, every remaining chunk must be well-formed. -/
def syntaxCheck (pattern : Str) : Except Unit Bool :=
  if h : pattern = [] then .ok false
  else
    match matchChunk (scanChunk pattern).2.1 [] with
    | .error _ => .error ()
    | .ok _ => syntaxCheck (scanChunk pattern).2.2
termination_by pattern.length
decreasing_by
  exact scanChunk_length pattern h

/-- Main loop of `filepath.Match(pattern, name)`. -/
def goMatchAux (pattern name : Str) : Except Unit Bool :=
  if h : pattern = [] then .ok (name = [])
  else
    let star := (scanChunk pattern).1
    let chunk := (scanChunk pattern).2.1
    let rest := (scanChunk pattern).2.2
    if star = true ∧ chunk = [] then .ok (!(name.contains '/'))
    else
      match matchChunk chunk name with
      | .error _ => .error ()
      | .ok (some t) =>
        if t = [] ∨ ¬ rest = [] then goMatchAux rest t
        else if star then
          match starSkip chunk rest name with
          | .error _ => .error ()
          | .ok (some t2) => goMatchAux rest t2
          | .ok none => syntaxCheck rest
        else syntaxCheck rest
      | .ok none =>
        if star then
          match starSkip chunk rest name with
          | .error _ => .error ()
          | .ok (some t2) => goMatchAux rest t2
          | .ok none => syntaxCheck rest
        else syntaxCheck rest
termination_by pattern.length
decreasing_by
  · exact scanChunk_length pattern h
  · exact scanChunk_length pattern h
  · exact scanChunk_length pattern h

/-- Result of `filepath.Match` as the policy code consumes it: `false` on
`ErrBadPattern`, the match result otherwise (`engine.go` lines 130-136). -/
def goMatchBool (pattern name : Str) : Bool :=
  match goMatchAux pattern name with
  | .ok b => b
  | .error _ => false

/-- Embedding of `matchPattern(name, pattern)` from
`internal/profile/engine.go`: bare `*`/`**` match anything, then exact
match, then the `**` prefix/suffix/middle rules, then single-segment
`filepath.Match` globbing; a pattern without `*` that is not the name
matches nothing. -/
def matchPattern (name pattern : Str) : Bool :=
  if pattern = ['*'] ∨ pattern = ['*', '*'] then true
  else if name = pattern then true
  else if pattern.contains '*' then
    if containsSub pattern ['*', '*'] then
      if hasSuffix pattern ['*', '*'] then
        hasPrefix name (trimSuffix pattern ['*', '*'])
      else if hasPrefix pattern ['*', '*'] then
        hasSuffix name (trimPrefixStr pattern ['*', '*'])
      else
        match splitOnce pattern ['*', '*'] with
        | some (a, b) => hasPrefix name a && hasSuffix name b
        | none => goMatchBool pattern name
    else goMatchBool pattern name
  else false

/-- Embedding of `matchesAny(name, patterns)`: first match wins. -/
def matchesAny (name : Str) : List Str → Bool
  | [] => false
  | p :: rest => if matchPattern name p then true else matchesAny name rest

/-- Allow/deny pattern lists of one capability kind
(`config.ComponentFilter`). -/
structure ComponentFilter where
  allow : List Str
  deny : List Str

/-- Per-backend filters of a profile (`config.ServerProfileConfig`). -/
structure ServerProfileConfig where
  tools : ComponentFilter
  resources : ComponentFilter
  prompts : ComponentFilter

/-- One profile (`config.ProfileConfig`).  The Go `map[string]…` of
backend filters is modelled as an association list with unique keys;
lookup takes the first binding. -/
structure ProfileConfig where
  description : Str
  servers : List (Str × ServerProfileConfig)

/-- Transport descriptor of a backend (`config.ServerTransportConfig`). -/
structure ServerTransportConfig where
  kind : Str
  command : Str
  args : List Str
  env : List (Str × Str)
  url : Str
  headers : List (Str × Str)

/-- One backend definition (`config.ServerConfig`). -/
structure ServerConfig where
  displayName : Str
  transport : ServerTransportConfig

/-- Hub flags (`config.HubConfig`). -/
structure HubConfig where
  enabled : Bool
  prefixServerIDs : Bool

/-- The validated configuration object (`config.RootConfig`), maps again
as association lists. -/
structure RootConfig where
  defaultProfile : Str
  servers : List (Str × ServerConfig)
  profiles : List (Str × ProfileConfig)
  hub : HubConfig

/-- Association-list lookup standing in for Go map indexing `m[k]`. -/
def lookup {α : Type} : List (Str × α) → Str → Option α
  | [], _ => none
  | (k, v) :: rest, key => if k = key then some v else lookup rest key

/-- The profile engine (`profile.Engine`): the configuration and the
active profile name, fixed at construction. -/
structure Engine where
  config : RootConfig
  profile : Str

/-- Embedding of `Engine.isAllowed`: unknown profile denies, backend not
in the profile denies, any deny match denies, an empty allow list then
allows, otherwise some allow pattern must match. -/
def Engine.isAllowed (e : Engine) (serverID name : Str)
    (getFilter : ServerProfileConfig → ComponentFilter) : Bool :=
  match lookup e.config.profiles e.profile with
  | none => false
  | some profile =>
    match lookup profile.servers serverID with
    | none => false
    | some serverProfile =>
      let filter := getFilter serverProfile
      if matchesAny name filter.deny then false
      else if filter.allow.isEmpty then true
      else matchesAny name filter.allow

/-- Embedding of `Engine.IsToolAllowed`. -/
def Engine.isToolAllowed (e : Engine) (serverID toolName : Str) : Bool :=
  e.isAllowed serverID toolName (fun spc => spc.tools)

/-- Embedding of `Engine.IsResourceAllowed`. -/
def Engine.isResourceAllowed (e : Engine) (serverID uri : Str) : Bool :=
  e.isAllowed serverID uri (fun spc => spc.resources)

/-- Embedding of `Engine.IsPromptAllowed`. -/
def Engine.isPromptAllowed (e : Engine) (serverID promptName : Str) : Bool :=
  e.isAllowed serverID promptName (fun spc => spc.prompts)

/-- The three capability kinds the dispatch is keyed by. -/
inductive Kind where
  | tools
  | resources
  | prompts
deriving DecidableEq

/-- The filter a kind selects inside a backend's profile entry. -/
def kindFilter : Kind → ServerProfileConfig → ComponentFilter
  | .tools, spc => spc.tools
  | .resources, spc => spc.resources
  | .prompts, spc => spc.prompts

/-- The policy decision `Allowed(profileID, backendID, kind, name)`: the
engine's per-kind check, dispatched on the kind. -/
def Engine.allowedFor (e : Engine) (kind : Kind) (serverID name : Str) : Bool :=
  match kind with
  | .tools => e.isToolAllowed serverID name
  | .resources => e.isResourceAllowed serverID name
  | .prompts => e.isPromptAllowed serverID name

/-- Reference policy decision written from the claim's words: if the
profile is unknown, deny; if the backend is not listed under the profile,
deny; otherwise, if the name matches any deny pattern of the kind's
filter, deny; otherwise, if the allow list is empty, allow; otherwise
allow iff the name matches some allow pattern. -/
def allowedRef (cfg : RootConfig) (profileID serverID : Str) (kind : Kind)
    (name : Str) : Bool :=
  match lookup cfg.profiles profileID with
  | none => false
  | some p =>
    match lookup p.servers serverID with
    | none => false
    | some spc =>
      let f := kindFilter kind spc
      if f.deny.any (fun pat => matchPattern name pat) then false
      else if f.allow = [] then true
      else f.allow.any (fun pat => matchPattern name pat)

/-- A tool record as discovery returns it (`mcp.Tool`, reduced to the
fields the router reads or rewrites). -/
structure Tool where
  name : Str
  description : Str
deriving DecidableEq

/-- A resource record (`mcp.Resource`, reduced likewise). -/
structure Resource where
  uri : Str
deriving DecidableEq

/-- A prompt record (`mcp.Prompt`, reduced likewise). -/
structure Prompt where
  name : Str
deriving DecidableEq

/-- An upstream MCP session (`mcp.ClientSession`), modelled by the
observable reply of each call the router makes, with `ρ` the opaque
payload type of invocation results (passed through verbatim).  A dead or
closed session is one whose calls return errors. -/
structure Session (ρ : Type) where
  listToolsR : Except GoError (List Tool)
  callToolR : Str → Except GoError ρ
  listResourcesR : Except GoError (List Resource)
  readResourceR : Str → Except GoError ρ
  listPromptsR : Except GoError (List Prompt)
  getPromptR : Str → Except GoError ρ

/-- The per-kind invocation call on a session. -/
def Session.invokeR {ρ : Type} (s : Session ρ) (kind : Kind) (name : Str) :
    Except GoError ρ :=
  match kind with
  | .tools => s.callToolR name
  | .resources => s.readResourceR name
  | .prompts => s.getPromptR name

/-- A transport as the connection manager builds it.  The `headers` field
of `http` records the static headers the transport's request decorator
injects on every outbound request of the session. -/
inductive Transport where
  | stdio (command : Str) (args : List Str) (env : List (Str × Str))
  | http (url : Str) (headers : List (Str × Str))
deriving DecidableEq

/-- Embedding of `createStdioTransport` from
`internal/upstream/manager.go`: a child process command with the
configured argument list and environment overrides (the inherited ambient
environment is not modelled). -/
def createStdioTransport (serverCfg : ServerConfig) : Except GoError Transport :=
  .ok (.stdio serverCfg.transport.command serverCfg.transport.args
    serverCfg.transport.env)

/-- Embedding of `createHTTPTransport` from
`internal/upstream/manager.go`: a `StreamableClientTransport` with the
configured URL and the default HTTP client.  No header decorator is
installed (the code carries a TODO instead), so the set of statically
injected headers is empty whatever the configuration holds. -/
def createHTTPTransport (serverCfg : ServerConfig) : Except GoError Transport :=
  .ok (.http serverCfg.transport.url [])

/-- The transport-kind switch of `Manager.Connect`. -/
def createTransport (serverCfg : ServerConfig) : Except GoError Transport :=
  if serverCfg.transport.kind = "stdio".toList then createStdioTransport serverCfg
  else if serverCfg.transport.kind = "http".toList then createHTTPTransport serverCfg
  else .error ("unsupported transport kind: ".toList ++ serverCfg.transport.kind)

/-- Embedding of the http case of `Upstream.Connect` in the alternate
upstream module (src/unnamed/part_004): when at least one header is
configured the HTTP client is wrapped in a `headerTransport` decorator,
fixed at build time, that sets every configured header on each outbound
request; with no headers configured the plain client is used. -/
def connectTransportAlt (cfg : ServerConfig) : Except GoError Transport :=
  if cfg.transport.kind = "stdio".toList then
    .ok (.stdio cfg.transport.command cfg.transport.args cfg.transport.env)
  else if cfg.transport.kind = "http".toList then
    .ok (.http cfg.transport.url
      (if cfg.transport.headers.isEmpty then [] else cfg.transport.headers))
  else .error ("unsupported transport kind: ".toList ++ cfg.transport.kind)

/-- A live upstream connection (`upstream.Upstream`): id, display name
and the session established by `Connect`. -/
structure Upstream (ρ : Type) where
  id : Str
  displayName : Str
  session : Session ρ

/-- The connection registry (`upstream.Manager`).  The Go map is modelled
as an association list in registration order; the reader/writer lock is
not modelled (handlers see a consistent registry snapshot). -/
structure Manager (ρ : Type) where
  upstreams : List (Str × Upstream ρ)

/-- Embedding of `Manager.Get`. -/
def Manager.get {ρ : Type} (m : Manager ρ) (serverID : Str) :
    Except GoError (Upstream ρ) :=
  match lookup m.upstreams serverID with
  | none => .error ("upstream server ".toList ++ serverID ++ " not found".toList)
  | some u => .ok u

/-- Embedding of `Manager.List`: every registered upstream.  Go iterates
the map in unspecified order; the model returns registration order. -/
def Manager.list {ρ : Type} (m : Manager ρ) : List (Upstream ρ) :=
  m.upstreams.map (fun p => p.2)

/-- Embedding of `Manager.Connect`: fail on a duplicate id before
anything else, then build the transport per kind, then perform the
handshake (`client.Connect`, abstracted as `establish`), then register.
The result is the new registry state and the returned error; on error the
registry is the old one, as the Go method returns before mutating the
map. -/
def Manager.connect {ρ : Type} (m : Manager ρ) (serverID : Str)
    (serverCfg : ServerConfig)
    (establish : Transport → Except GoError (Session ρ)) :
    Manager ρ × Option GoError :=
  match lookup m.upstreams serverID with
  | some _ => (m, some ("already connected to server ".toList ++ serverID))
  | none =>
    match createTransport serverCfg with
    | .error e =>
      (m, some ("failed to create transport for server ".toList ++ serverID
        ++ ": ".toList ++ e))
    | .ok t =>
      match establish t with
      | .error e =>
        (m, some ("failed to connect to server ".toList ++ serverID
          ++ ": ".toList ++ e))
      | .ok s =>
        ({ upstreams := m.upstreams
            ++ [(serverID, { id := serverID,
                             displayName := serverCfg.displayName,
                             session := s })] }, none)

/-- Whether an `Except` is the error case. -/
def isErr {ε α : Type} : Except ε α → Bool
  | .error _ => true
  | .ok _ => false

/-- The prefixed wire name produced at discovery when prefix mode is on:
`fmt.Sprintf("%s:%s", u.ID, name)`. -/
def encodePrefixed (serverID name : Str) : Str :=
  serverID ++ ':' :: name

/-- The aggregating router (`proxy.Hub`): registry, policy engine and the
prefix-mode flag, all fixed at construction. -/
structure Hub (ρ : Type) where
  manager : Manager ρ
  engine : Engine
  prefixEnabled : Bool

/-- Embedding of `Hub.handleToolsList`: for every registered upstream,
skip it wholesale when its list call errors, otherwise keep the tools the
profile allows, renaming to `serverID:name` in prefix mode, appending in
order.  The overall call never fails. -/
def Hub.handleToolsList {ρ : Type} (h : Hub ρ) : Except GoError (List Tool) :=
  .ok ((h.manager.list).foldl (fun allTools u =>
    match u.session.listToolsR with
    | .error _ => allTools
    | .ok result =>
      result.foldl (fun acc tool =>
        if !(h.engine.isToolAllowed u.id tool.name) then acc
        else acc ++ [if h.prefixEnabled then
          { tool with name := encodePrefixed u.id tool.name } else tool])
        allTools) [])

/-- The last-error message of a failed no-prefix probe, per kind
(`"%s %q allowed by profile but call failed: %v"`). -/
def probeFailMsg (kind : Kind) (ref : Str) (e : GoError) : GoError :=
  match kind with
  | .tools => "tool ".toList ++ ref ++ " allowed by profile but call failed: ".toList ++ e
  | .resources => "resource ".toList ++ ref ++ " allowed by profile but read failed: ".toList ++ e
  | .prompts => "prompt ".toList ++ ref ++ " allowed by profile but get failed: ".toList ++ e

/-- The distinct error of a probe in which no backend was permitted
(`"%s %q not found in any upstream or not allowed by profile"`). -/
def probeNotFoundMsg (kind : Kind) (ref : Str) : GoError :=
  match kind with
  | .tools => "tool ".toList ++ ref ++ " not found in any upstream or not allowed by profile".toList
  | .resources => "resource ".toList ++ ref ++ " not found in any upstream or not allowed by profile".toList
  | .prompts => "prompt ".toList ++ ref ++ " not found in any upstream or not allowed by profile".toList

/-- The no-prefix probe loop, repeated verbatim in the Go source for each
of tools/resources/prompts: walk the registry in order, skip any upstream
the policy denies, forward to each permitted one until the first success,
remembering the last failure.  Returns the outcome together with the ids
of the upstreams actually contacted, in order. -/
def probe {ρ : Type} (allowedF : Upstream ρ → Bool)
    (callF : Upstream ρ → Except GoError ρ) (failErr : GoError → GoError)
    (notFoundErr : GoError) :
    List (Upstream ρ) → Option GoError → Except GoError ρ × List Str
  | [], lastE =>
    match lastE with
    | some e => (.error (failErr e), [])
    | none => (.error notFoundErr, [])
  | u :: rest, lastE =>
    if allowedF u then
      match callF u with
      | .ok r => (.ok r, [u.id])
      | .error e =>
        let next := probe allowedF callF failErr notFoundErr rest (some e)
        (next.1, u.id :: next.2)
    else probe allowedF callF failErr notFoundErr rest lastE

/-- Embedding of `Hub.handleToolsCall`.  In prefix mode: split the
reference on the first colon (missing colon is a hard error), resolve the
backend, re-check the policy, then forward; the second component lists
the backends forwarded to. -/
def Hub.handleToolsCall {ρ : Type} (h : Hub ρ) (toolName : Str) :
    Except GoError ρ × List Str :=
  if h.prefixEnabled then
    match splitOnce toolName [':'] with
    | none =>
      (.error "tool name must be in format server:toolname when prefixing is enabled".toList, [])
    | some (serverID, actualToolName) =>
      match h.manager.get serverID with
      | .error _ =>
        (.error ("upstream server ".toList ++ serverID ++ " not found".toList), [])
      | .ok u =>
        if !(h.engine.isToolAllowed serverID actualToolName) then
          (.error ("tool ".toList ++ toolName ++ " is not allowed by profile".toList), [])
        else (u.session.callToolR actualToolName, [serverID])
  else
    probe (fun u => h.engine.isToolAllowed u.id toolName)
      (fun u => u.session.callToolR toolName)
      (probeFailMsg .tools toolName) (probeNotFoundMsg .tools toolName)
      h.manager.list none

/-- Embedding of `Hub.handleResourcesRead` (same shape as the tool call;
a failed `Get` propagates the manager's error verbatim). -/
def Hub.handleResourcesRead {ρ : Type} (h : Hub ρ) (uri : Str) :
    Except GoError ρ × List Str :=
  if h.prefixEnabled then
    match splitOnce uri [':'] with
    | none =>
      (.error "resource URI must be in format server:uri when prefixing is enabled".toList, [])
    | some (serverID, actualURI) =>
      match h.manager.get serverID with
      | .error e => (.error e, [])
      | .ok u =>
        if !(h.engine.isResourceAllowed serverID actualURI) then
          (.error ("resource ".toList ++ uri ++ " is not allowed by profile".toList), [])
        else (u.session.readResourceR actualURI, [serverID])
  else
    probe (fun u => h.engine.isResourceAllowed u.id uri)
      (fun u => u.session.readResourceR uri)
      (probeFailMsg .resources uri) (probeNotFoundMsg .resources uri)
      h.manager.list none

/-- Embedding of `Hub.handlePromptsGet` (same shape; a failed `Get`
propagates the manager's error verbatim). -/
def Hub.handlePromptsGet {ρ : Type} (h : Hub ρ) (promptName : Str) :
    Except GoError ρ × List Str :=
  if h.prefixEnabled then
    match splitOnce promptName [':'] with
    | none =>
      (.error "prompt name must be in format server:promptname when prefixing is enabled".toList, [])
    | some (serverID, actualPromptName) =>
      match h.manager.get serverID with
      | .error e => (.error e, [])
      | .ok u =>
        if !(h.engine.isPromptAllowed serverID actualPromptName) then
          (.error ("prompt ".toList ++ promptName ++ " is not allowed by profile".toList), [])
        else (u.session.getPromptR actualPromptName, [serverID])
  else
    probe (fun u => h.engine.isPromptAllowed u.id promptName)
      (fun u => u.session.getPromptR promptName)
      (probeFailMsg .prompts promptName) (probeNotFoundMsg .prompts promptName)
      h.manager.list none

/-- The hub's invocation dispatch over the three kinds. -/
def Hub.invoke {ρ : Type} (h : Hub ρ) (kind : Kind) (ref : Str) :
    Except GoError ρ × List Str :=
  match kind with
  | .tools => h.handleToolsCall ref
  | .resources => h.handleResourcesRead ref
  | .prompts => h.handlePromptsGet ref

/-- The isolated proxy's upstream slot (`upstream.Upstream` as the
server-side proxy holds it: the session pointer may be nil before or
after a connection exists). -/
structure ProxyUpstream (ρ : Type) where
  session : Option (Session ρ)

/-- The isolated single-backend proxy (`server.Proxy`): upstream name,
the (possibly nil) upstream, and the policy engine. -/
structure Proxy (ρ : Type) where
  upstreamName : Str
  upstream : Option (ProxyUpstream ρ)
  engine : Engine

/-- Embedding of `Proxy.handleListTools`: a nil upstream or nil session
yields an empty successful result; an upstream list error is returned as
an error; otherwise the profile-allowed tools are kept in order. -/
def Proxy.handleListTools {ρ : Type} (p : Proxy ρ) : Except GoError (List Tool) :=
  match p.upstream with
  | none => .ok []
  | some u =>
    match u.session with
    | none => .ok []
    | some s =>
      match s.listToolsR with
      | .error e => .error e
      | .ok result =>
        .ok (result.foldl (fun acc tool =>
          if p.engine.isToolAllowed p.upstreamName tool.name then acc ++ [tool]
          else acc) [])

/-- Embedding of `Proxy.handleListResources` (same shape). -/
def Proxy.handleListResources {ρ : Type} (p : Proxy ρ) :
    Except GoError (List Resource) :=
  match p.upstream with
  | none => .ok []
  | some u =>
    match u.session with
    | none => .ok []
    | some s =>
      match s.listResourcesR with
      | .error e => .error e
      | .ok result =>
        .ok (result.foldl (fun acc res =>
          if p.engine.isResourceAllowed p.upstreamName res.uri then acc ++ [res]
          else acc) [])

/-- Embedding of `Proxy.handleListPrompts` (same shape). -/
def Proxy.handleListPrompts {ρ : Type} (p : Proxy ρ) :
    Except GoError (List Prompt) :=
  match p.upstream with
  | none => .ok []
  | some u =>
    match u.session with
    | none => .ok []
    | some s =>
      match s.listPromptsR with
      | .error e => .error e
      | .ok result =>
        .ok (result.foldl (fun acc pr =>
          if p.engine.isPromptAllowed p.upstreamName pr.name then acc ++ [pr]
          else acc) [])

/-- The forward step shared by the proxy's three invocation handlers:
`p.Upstream.Session.<Call>`.  The Go code dereferences the upstream and
session unchecked here (a nil would panic); the nil cases are modelled as
errors and are unreachable in wired use, where the proxy is built from a
connected upstream.  The second component lists the backends forwarded
to.  The argument re-marshalling step of `handleCallTool`, which concerns
only the argument payload, is not modelled. -/
def Proxy.forwardVia {ρ : Type} (p : Proxy ρ)
    (f : Session ρ → Except GoError ρ) : Except GoError ρ × List Str :=
  match p.upstream with
  | some u =>
    match u.session with
    | some s => (f s, [p.upstreamName])
    | none => (.error "nil session".toList, [])
  | none => (.error "nil upstream".toList, [])

/-- Embedding of `Proxy.handleCallTool`: one policy check, then forward
or reject. -/
def Proxy.handleCallTool {ρ : Type} (p : Proxy ρ) (name : Str) :
    Except GoError ρ × List Str :=
  if !(p.engine.isToolAllowed p.upstreamName name) then
    (.error "tool disabled by policy".toList, [])
  else p.forwardVia (fun s => s.callToolR name)

/-- Embedding of `Proxy.handleReadResource`. -/
def Proxy.handleReadResource {ρ : Type} (p : Proxy ρ) (uri : Str) :
    Except GoError ρ × List Str :=
  if !(p.engine.isResourceAllowed p.upstreamName uri) then
    (.error "resource disabled by policy".toList, [])
  else p.forwardVia (fun s => s.readResourceR uri)

/-- Embedding of `Proxy.handleGetPrompt`. -/
def Proxy.handleGetPrompt {ρ : Type} (p : Proxy ρ) (name : Str) :
    Except GoError ρ × List Str :=
  if !(p.engine.isPromptAllowed p.upstreamName name) then
    (.error "prompt disabled by policy".toList, [])
  else p.forwardVia (fun s => s.getPromptR name)

/-- The proxy's invocation dispatch over the three kinds. -/
def Proxy.invoke {ρ : Type} (p : Proxy ρ) (kind : Kind) (ref : Str) :
    Except GoError ρ × List Str :=
  match kind with
  | .tools => p.handleCallTool ref
  | .resources => p.handleReadResource ref
  | .prompts => p.handleGetPrompt ref

/-- Reference function for the probe log: the ids of the prefix of a
(already policy-filtered) upstream list up to and including the first
whose call succeeds. -/
def attemptsUntilSuccess {ρ : Type} (callF : Upstream ρ → Except GoError ρ) :
    List (Upstream ρ) → List Str
  | [] => []
  | u :: rest =>
    match callF u with
    | .ok _ => [u.id]
    | .error _ => u.id :: attemptsUntilSuccess callF rest

/-- Reference function for the probe result: the first successful call's
payload in a policy-filtered upstream list. -/
def firstOk {ρ : Type} (callF : Upstream ρ → Except GoError ρ) :
    List (Upstream ρ) → Option ρ
  | [] => none
  | u :: rest =>
    match callF u with
    | .ok r => some r
    | .error _ => firstOk callF rest

/-- Reference function for the surfaced failure: the last error among the
calls of a policy-filtered upstream list, starting from `acc`. -/
def lastErrAcc {ρ : Type} (callF : Upstream ρ → Except GoError ρ) :
    List (Upstream ρ) → Option GoError → Option GoError
  | [], acc => acc
  | u :: rest, acc =>
    match callF u with
    | .ok _ => lastErrAcc callF rest acc
    | .error e => lastErrAcc callF rest (some e)

/-!
Concrete fixtures used by the witness and counterexample theorems, with
`Nat` as the opaque invocation payload.
-/

/-- A session that lists one tool `ping` and answers every invocation
with the payload `n`. -/
def sessionConst (n : Nat) : Session Nat where
  listToolsR := .ok [{ name := "ping".toList, description := "a ping".toList }]
  callToolR := fun _ => .ok n
  listResourcesR := .ok []
  readResourceR := fun _ => .ok n
  listPromptsR := .ok []
  getPromptR := fun _ => .ok n

/-- A session whose every call fails (a dead upstream). -/
def sessionDead : Session Nat where
  listToolsR := .error "upstream list failed".toList
  callToolR := fun _ => .error "upstream call failed".toList
  listResourcesR := .error "upstream list failed".toList
  readResourceR := fun _ => .error "upstream call failed".toList
  listPromptsR := .error "upstream list failed".toList
  getPromptR := fun _ => .error "upstream call failed".toList

/-- A profile configuration in which profile `safe` permits tool `ping`
only on backend `b2`, and on backend `fs` permits only `read_file`. -/
def cfgEx : RootConfig where
  defaultProfile := "safe".toList
  servers := []
  profiles :=
    [(("safe".toList),
      { description := "minimal surface".toList
        servers :=
          [(("b1".toList),
            { tools := { allow := ["other_tool".toList], deny := [] }
              resources := { allow := [], deny := [] }
              prompts := { allow := [], deny := [] } }),
           (("b2".toList),
            { tools := { allow := ["ping".toList], deny := [] }
              resources := { allow := [], deny := [] }
              prompts := { allow := [], deny := [] } }),
           (("fs".toList),
            { tools := { allow := ["read_file".toList], deny := [] }
              resources := { allow := [], deny := [] }
              prompts := { allow := [], deny := [] } })] })]
  hub := { enabled := true, prefixServerIDs := false }

/-- The engine over `cfgEx` with profile `safe`. -/
def engineEx : Engine where
  config := cfgEx
  profile := "safe".toList

/-- Upstream `b1`, answering invocations with payload `3`. -/
def upstreamB1 : Upstream Nat where
  id := "b1".toList
  displayName := "Backend 1".toList
  session := sessionConst 3

/-- Upstream `b2`, answering invocations with payload `7`. -/
def upstreamB2 : Upstream Nat where
  id := "b2".toList
  displayName := "Backend 2".toList
  session := sessionConst 7

/-- A no-prefix hub over backends `b1` and `b2`, both exposing `ping`,
with profile `safe` permitting `ping` only on `b2`. -/
def hubNoPrefixEx : Hub Nat where
  manager := { upstreams := [("b1".toList, upstreamB1), ("b2".toList, upstreamB2)] }
  engine := engineEx
  prefixEnabled := false

/-- A prefix-mode hub over backend `fs` under profile `safe`. -/
def hubPrefixEx : Hub Nat where
  manager :=
    { upstreams := [("fs".toList,
        { id := "fs".toList, displayName := "Files".toList,
          session := sessionConst 9 })] }
  engine := engineEx
  prefixEnabled := true

/-- An isolated proxy for backend `fs` under profile `safe`, with a live
session. -/
def proxyFsEx : Proxy Nat where
  upstreamName := "fs".toList
  upstream := some { session := some (sessionConst 9) }
  engine := engineEx

/-- An isolated proxy whose upstream list calls fail. -/
def proxyListErrEx : Proxy Nat where
  upstreamName := "ctx".toList
  upstream := some { session := some sessionDead }
  engine := engineEx

/-- An isolated proxy with no upstream at all. -/
def proxyNilEx : Proxy Nat where
  upstreamName := "ctx".toList
  upstream := none
  engine := engineEx

/-- A backend definition on the http transport with one configured static
header, as in the shipped example configuration. -/
def httpCfgEx : ServerConfig where
  displayName := "GitHub".toList
  transport :=
    { kind := "http".toList
      command := []
      args := []
      env := []
      url := "https://mcp-github.internal/mcp".toList
      headers := [("Authorization".toList, "Bearer token".toList)] }

/-- A stdio backend definition. -/
def stdioCfgEx : ServerConfig where
  displayName := "Stdio backend".toList
  transport :=
    { kind := "stdio".toList
      command := "srv".toList
      args := []
      env := []
      url := []
      headers := [] }

/-- A handshake that always succeeds with a constant session. -/
def estEx : Transport → Except GoError (Session Nat) :=
  fun _ => .ok (sessionConst 5)

/-- A one-backend registry holding `b1`. -/
def mgrEx : Manager Nat where
  upstreams := [("b1".toList, upstreamB1)]

/-!
Supporting lemmas about the string utilities.
-/

theorem hasPrefix_nil (s : Str) : hasPrefix s [] = true := by
  cases s <;> rfl

theorem hasPrefix_append_self (a y : Str) : hasPrefix (a ++ y) a = true := by
  induction a with
  | nil => exact hasPrefix_nil _
  | cons c a' ih => simp [hasPrefix, ih]

theorem hasPrefix_take (s : Str) (k : Nat) : hasPrefix s (s.take k) = true := by
  have h := hasPrefix_append_self (s.take k) (s.drop k)
  rwa [List.take_append_drop] at h

theorem hasSuffix_append_self (x b : Str) : hasSuffix (x ++ b) b = true := by
  unfold hasSuffix
  rw [List.reverse_append]
  exact hasPrefix_append_self b.reverse x.reverse

theorem hasSuffix_drop (s : Str) (k : Nat) : hasSuffix s (s.drop k) = true := by
  have h := hasSuffix_append_self (s.take k) (s.drop k)
  rwa [List.take_append_drop] at h

theorem hasPrefix_eq_append {s pre : Str} (h : hasPrefix s pre = true) :
    s = pre ++ s.drop pre.length := by
  induction pre generalizing s with
  | nil => simp
  | cons d pre' ih =>
    match s with
    | [] => simp [hasPrefix] at h
    | c :: s' =>
      simp only [hasPrefix, Bool.and_eq_true, decide_eq_true_eq] at h
      obtain ⟨rfl, h2⟩ := h
      simp only [List.length_cons, List.drop_succ_cons, List.cons_append]
      exact congrArg (List.cons c) (ih h2)

theorem splitOnce_append {s sep a b : Str} (h : splitOnce s sep = some (a, b)) :
    s = a ++ (sep ++ b) := by
  induction s generalizing a with
  | nil =>
    rw [splitOnce] at h
    split at h
    · rename_i hp
      match sep, hp with
      | [], _ =>
        simp only [List.drop_nil, Option.some.injEq, Prod.mk.injEq] at h
        obtain ⟨rfl, rfl⟩ := h
        simp
      | d :: sep', hp => simp [hasPrefix] at hp
    · simp at h
  | cons c rest ih =>
    rw [splitOnce] at h
    split at h
    · rename_i hp
      simp only [Option.some.injEq, Prod.mk.injEq] at h
      obtain ⟨rfl, rfl⟩ := h
      simpa using hasPrefix_eq_append hp
    · simp only [Option.map_eq_some'] at h
      obtain ⟨⟨a', b'⟩, hsp, heq⟩ := h
      simp only [Prod.mk.injEq] at heq
      obtain ⟨h1, h2⟩ := heq
      subst h1
      subst h2
      simpa using congrArg (List.cons c) (ih hsp)

theorem containsSub_star (p : Str) (h : containsSub p ['*', '*'] = true) :
    p.contains '*' = true := by
  induction p with
  | nil => exact absurd h (by decide)
  | cons c rest ih =>
    rw [containsSub] at h
    split at h
    · rename_i hp
      simp only [hasPrefix, Bool.and_eq_true, decide_eq_true_eq] at hp
      simp [List.contains_cons, hp.1]
    · simp only [List.contains_cons, Bool.or_eq_true]
      exact Or.inr (ih h)

theorem matchesAny_eq_any (name : Str) (l : List Str) :
    matchesAny name l = l.any (fun pat => matchPattern name pat) := by
  induction l with
  | nil => rfl
  | cons p rest ih =>
    simp only [matchesAny, List.any_cons]
    by_cases h : matchPattern name p
    · simp [h]
    · simp [h, ih]

theorem isEmpty_eq_nil {α : Type} [DecidableEq α] (l : List α) :
    l.isEmpty = decide (l = []) := by
  cases l <;> simp

theorem isAllowed_eq_ref_aux (cfg : RootConfig) (profileID serverID name : Str)
    (sel : ServerProfileConfig → ComponentFilter) :
    Engine.isAllowed { config := cfg, profile := profileID } serverID name sel
      = (match lookup cfg.profiles profileID with
         | none => false
         | some p =>
           match lookup p.servers serverID with
           | none => false
           | some spc =>
             if (sel spc).deny.any (fun pat => matchPattern name pat) then false
             else if (sel spc).allow = [] then true
             else (sel spc).allow.any (fun pat => matchPattern name pat)) := by
  unfold Engine.isAllowed
  rcases hl : lookup cfg.profiles profileID with _ | p
  · rfl
  · show (match lookup p.servers serverID with
          | none => false
          | some serverProfile =>
            let filter := sel serverProfile
            if matchesAny name filter.deny then false
            else if filter.allow.isEmpty then true
            else matchesAny name filter.allow)
        = (match lookup p.servers serverID with
           | none => false
           | some spc =>
             if (sel spc).deny.any (fun pat => matchPattern name pat) then false
             else if (sel spc).allow = [] then true
             else (sel spc).allow.any (fun pat => matchPattern name pat))
    rcases hs : lookup p.servers serverID with _ | spc
    · rfl
    · show (if matchesAny name (sel spc).deny then false
            else if (sel spc).allow.isEmpty then true
            else matchesAny name (sel spc).allow)
          = (if (sel spc).deny.any (fun pat => matchPattern name pat) then false
             else if (sel spc).allow = [] then true
             else (sel spc).allow.any (fun pat => matchPattern name pat))
      simp only [matchesAny_eq_any, isEmpty_eq_nil]
      by_cases hd : (sel spc).deny.any (fun pat => matchPattern name pat)
      · simp [hd]
      · by_cases ha : (sel spc).allow = [] <;> simp [hd, ha]

/-- C2: the policy decision `Allowed(profileID, backendID, kind, name)`
equals the reference decision built from the spec's words: unknown
profile denies; a backend not listed under the profile denies; a deny
match denies, overriding allow; an empty allow list allows; otherwise the
name must match some allow pattern. -/
theorem allowed_eq_reference (cfg : RootConfig) (profileID serverID : Str)
    (kind : Kind) (name : Str) :
    Engine.allowedFor { config := cfg, profile := profileID } kind serverID name
      = allowedRef cfg profileID serverID kind name := by
  cases kind with
  | tools => exact isAllowed_eq_ref_aux cfg profileID serverID name _
  | resources => exact isAllowed_eq_ref_aux cfg profileID serverID name _
  | prompts => exact isAllowed_eq_ref_aux cfg profileID serverID name _

/-- C10: a wildcard-free pattern matches exactly the equal name, nothing
else: no prefix, suffix or substring semantics apply without a `*`. -/
theorem wildcard_free_pattern_exact (n p : Str) (h : p.contains '*' = false) :
    (matchPattern n p = true) ↔ n = p := by
  unfold matchPattern
  have h1 : ¬ (p = ['*'] ∨ p = ['*', '*']) := by
    rintro (rfl | rfl) <;> exact absurd h (by decide)
  rw [if_neg h1]
  by_cases h2 : n = p
  · rw [if_pos h2]
    simpa using h2
  · rw [if_neg h2]
    have h3 : ¬ (p.contains '*' = true) := by
      rw [h]
      simp
    rw [if_neg h3]
    simp [h2]

/-- Witness for C10 at a misspelled capability name. -/
theorem wildcard_free_pattern_exact_witness :
    (matchPattern ("read_fiel".toList) ("read_file".toList) = true)
      ↔ ("read_fiel".toList = "read_file".toList) :=
  wildcard_free_pattern_exact _ _ (by decide)

theorem trimSuffix_hasPrefix {p suf : Str} (h : hasSuffix p suf = true) :
    hasPrefix p (trimSuffix p suf) = true := by
  rw [trimSuffix, if_pos h]
  exact hasPrefix_take p _

theorem trimPrefixStr_hasSuffix {p pre : Str} (h : hasPrefix p pre = true) :
    hasSuffix p (trimPrefixStr p pre) = true := by
  rw [trimPrefixStr, if_pos h]
  exact hasSuffix_drop p _

theorem splitOnce_parts {p sep a b : Str} (h : splitOnce p sep = some (a, b)) :
    hasPrefix p a = true ∧ hasSuffix p b = true := by
  have he := splitOnce_append h
  constructor
  · rw [he]
    exact hasPrefix_append_self a (sep ++ b)
  · rw [he, ← List.append_assoc]
    exact hasSuffix_append_self (a ++ sep) b

/-- C3: the pattern matcher's case analysis.  A bare `*` or `**` matches
every name; a pattern equal to the name matches; a pattern with `*` but
no `**` (beyond those cases) delegates to single-segment glob matching,
with a malformed glob matching nothing rather than failing; a pattern
ending in `**` tests the part before it as a prefix; one starting with
`**` (and not ending so) tests the part after it as a suffix; an interior
`**` requires both the prefix and the suffix.  Every case is a total
boolean computation, so policy evaluation never fails a request. -/
theorem matchPattern_semantics :
    (∀ n : Str, matchPattern n ['*'] = true) ∧
    (∀ n : Str, matchPattern n ['*', '*'] = true) ∧
    (∀ n : Str, matchPattern n n = true) ∧
    (∀ n p : Str, p.contains '*' = true → containsSub p ['*', '*'] = false →
      ¬ p = ['*'] → ¬ n = p → matchPattern n p = goMatchBool p n) ∧
    (∀ n p : Str, containsSub p ['*', '*'] = true → ¬ p = ['*', '*'] →
      hasSuffix p ['*', '*'] = true →
      matchPattern n p = hasPrefix n (trimSuffix p ['*', '*'])) ∧
    (∀ n p : Str, containsSub p ['*', '*'] = true → ¬ p = ['*', '*'] →
      hasSuffix p ['*', '*'] = false → hasPrefix p ['*', '*'] = true →
      matchPattern n p = hasSuffix n (trimPrefixStr p ['*', '*'])) ∧
    (∀ (n p a b : Str), containsSub p ['*', '*'] = true →
      hasSuffix p ['*', '*'] = false → hasPrefix p ['*', '*'] = false →
      splitOnce p ['*', '*'] = some (a, b) →
      matchPattern n p = (hasPrefix n a && hasSuffix n b)) ∧
    (∀ n p : Str, p.contains '*' = true → containsSub p ['*', '*'] = false →
      ¬ p = ['*'] → ¬ n = p → goMatchAux p n = .error () →
      matchPattern n p = false) := by
  have star_excl : ∀ p : Str, containsSub p ['*', '*'] = true → ¬ p = ['*', '*'] →
      ¬ (p = ['*'] ∨ p = ['*', '*']) := by
    rintro p hcon hne (rfl | rfl)
    · exact absurd hcon (by decide)
    · exact hne rfl
  refine ⟨?_, ?_, ?_, ?_, ?_, ?_, ?_, ?_⟩
  · intro n
    unfold matchPattern
    rw [if_pos (Or.inl rfl)]
  · intro n
    unfold matchPattern
    rw [if_pos (Or.inr rfl)]
  · intro n
    unfold matchPattern
    by_cases h1 : n = ['*'] ∨ n = ['*', '*']
    · rw [if_pos h1]
    · rw [if_neg h1, if_pos rfl]
  · intro n p hstar hcon hne hnp
    unfold matchPattern
    have h1 : ¬ (p = ['*'] ∨ p = ['*', '*']) := by
      rintro (rfl | rfl)
      · exact hne rfl
      · exact absurd hcon (by decide)
    rw [if_neg h1, if_neg hnp, if_pos hstar]
    rw [if_neg (by rw [hcon]; simp : ¬ (containsSub p ['*', '*'] = true))]
  · intro n p hcon hne hsuf
    unfold matchPattern
    rw [if_neg (star_excl p hcon hne)]
    by_cases h2 : n = p
    · rw [if_pos h2]
      subst h2
      exact (trimSuffix_hasPrefix hsuf).symm
    · rw [if_neg h2, if_pos (containsSub_star p hcon), if_pos hcon, if_pos hsuf]
  · intro n p hcon hne hsuf hpre
    unfold matchPattern
    rw [if_neg (star_excl p hcon hne)]
    by_cases h2 : n = p
    · rw [if_pos h2]
      subst h2
      exact (trimPrefixStr_hasSuffix hpre).symm
    · rw [if_neg h2, if_pos (containsSub_star p hcon), if_pos hcon,
        if_neg (by rw [hsuf]; simp : ¬ (hasSuffix p ['*', '*'] = true)),
        if_pos hpre]
  · intro n p a b hcon hsuf hpre hsp
    have hne : ¬ p = ['*', '*'] := by
      rintro rfl
      exact absurd hsuf (by decide)
    unfold matchPattern
    rw [if_neg (star_excl p hcon hne)]
    by_cases h2 : n = p
    · rw [if_pos h2]
      subst h2
      have hparts := splitOnce_parts hsp
      rw [hparts.1, hparts.2]
      rfl
    · rw [if_neg h2, if_pos (containsSub_star p hcon), if_pos hcon,
        if_neg (by rw [hsuf]; simp : ¬ (hasSuffix p ['*', '*'] = true)),
        if_neg (by rw [hpre]; simp : ¬ (hasPrefix p ['*', '*'] = true)),
        hsp]
  · intro n p hstar hcon hne hnp herr
    unfold matchPattern
    have h1 : ¬ (p = ['*'] ∨ p = ['*', '*']) := by
      rintro (rfl | rfl)
      · exact hne rfl
      · exact absurd hcon (by decide)
    rw [if_neg h1, if_neg hnp, if_pos hstar,
      if_neg (by rw [hcon]; simp : ¬ (containsSub p ['*', '*'] = true))]
    unfold goMatchBool
    rw [herr]

/-- Witness for C3: a single-star glob delegates to `filepath.Match`, and
a trailing `**` is a prefix test, at concrete patterns. -/
theorem matchPattern_semantics_witness :
    matchPattern ("read_data".toList) ("read_*".toList)
        = goMatchBool ("read_*".toList) ("read_data".toList) ∧
    matchPattern ("file://docs/a/b".toList) ("file://docs/**".toList)
        = hasPrefix ("file://docs/a/b".toList)
            (trimSuffix ("file://docs/**".toList) ['*', '*']) :=
  ⟨matchPattern_semantics.2.2.2.1 _ _ (by decide) (by decide) (by decide) (by decide),
   matchPattern_semantics.2.2.2.2.1 _ _ (by decide) (by decide) (by decide)⟩

/-- C4 counterexample: a backend id that itself contains the separator
breaks the round trip.  The id `a:b` is accepted by `Connect` (nothing
validates ids against colons), discovery would emit `a:b:c` for its tool
`c`, yet prefixed invocation decodes that reference to backend `a` with
remainder `b:c`, not to the pair that produced it. -/
theorem prefixed_roundtrip_colon_cex :
    splitOnce (encodePrefixed ("a:b".toList) ("c".toList)) [':']
        = some ("a".toList, "b:c".toList) ∧
    ¬ splitOnce (encodePrefixed ("a:b".toList) ("c".toList)) [':']
        = some ("a:b".toList, "c".toList) ∧
    ((Manager.mk [] : Manager Nat).connect ("a:b".toList) stdioCfgEx estEx).2
        = none := by
  refine ⟨by decide, by decide, by decide⟩

/-- C4 amended: the prefixed reference round-trips exactly when the
backend id is free of the separator; the native name may contain colons
freely, since the split takes only the first colon. -/
theorem prefixed_roundtrip (serverID name : Str)
    (h : serverID.contains ':' = false) :
    splitOnce (encodePrefixed serverID name) [':'] = some (serverID, name) := by
  induction serverID with
  | nil =>
    show splitOnce (':' :: name) [':'] = some ([], name)
    rw [splitOnce, if_pos (by simp [hasPrefix, hasPrefix_nil])]
    rfl
  | cons c rest ih =>
    have hc : ¬ c = ':' := by
      intro hcc
      subst hcc
      rw [List.contains_cons] at h
      simp at h
    have hrest : rest.contains ':' = false := by
      rw [List.contains_cons] at h
      exact (Bool.or_eq_false_iff.mp h).2
    show splitOnce (c :: (rest ++ ':' :: name)) [':'] = some (c :: rest, name)
    rw [splitOnce, if_neg (by simp [hasPrefix, hc])]
    have ih' := ih hrest
    rw [encodePrefixed] at ih'
    show (splitOnce (rest ++ ':' :: name) [':']).map
        (fun pr => (c :: pr.1, pr.2)) = some (c :: rest, name)
    rw [ih']
    rfl

/-- Witness for the amended C4 at a name containing a colon. -/
theorem prefixed_roundtrip_witness :
    splitOnce (encodePrefixed ("fs".toList) ("file://a:b".toList)) [':']
        = some ("fs".toList, "file://a:b".toList) :=
  prefixed_roundtrip _ _ (by decide)

theorem foldl_filter_map_append {α β : Type} (c : α → Bool) (f : α → β)
    (l : List α) (acc : List β) :
    l.foldl (fun a t => if !(c t) then a else a ++ [f t]) acc
      = acc ++ (l.filter c).map f := by
  induction l generalizing acc with
  | nil => simp
  | cons x xs ih =>
    simp only [List.foldl_cons]
    by_cases hc : c x
    · rw [show (if !(c x) then acc else acc ++ [f x]) = acc ++ [f x] by simp [hc],
        ih]
      simp [List.filter_cons, hc]
    · rw [show (if !(c x) then acc else acc ++ [f x]) = acc by simp [hc], ih]
      simp [List.filter_cons, hc]

theorem hubListTools_foldl_eq {ρ : Type} (h : Hub ρ) (us : List (Upstream ρ))
    (acc : List Tool) :
    us.foldl (fun allTools u =>
      match u.session.listToolsR with
      | .error _ => allTools
      | .ok result =>
        result.foldl (fun acc2 tool =>
          if !(h.engine.isToolAllowed u.id tool.name) then acc2
          else acc2 ++ [if h.prefixEnabled then
            { tool with name := encodePrefixed u.id tool.name } else tool])
          allTools) acc
      = acc ++ us.bind (fun u =>
          match u.session.listToolsR with
          | .error _ => []
          | .ok ts =>
            (ts.filter (fun t => h.engine.isToolAllowed u.id t.name)).map
              (fun t => if h.prefixEnabled then
                { t with name := encodePrefixed u.id t.name } else t)) := by
  induction us generalizing acc with
  | nil => simp
  | cons u rest ih =>
    simp only [List.foldl_cons, List.cons_bind]
    cases hu : u.session.listToolsR with
    | error e =>
      simp only []
      rw [ih]
      simp
    | ok ts =>
      simp only []
      rw [foldl_filter_map_append (fun t => h.engine.isToolAllowed u.id t.name)
        (fun t => if h.prefixEnabled then
          { t with name := encodePrefixed u.id t.name } else t) ts acc, ih]
      simp [List.append_assoc]

/-- C5: hub discovery is partial-failure tolerant and exact.  The call
always succeeds, a backend whose list call fails contributes nothing, and
the result is precisely the in-order concatenation over the remaining
backends of their policy-allowed tools, renamed to `backendID:name` when
prefix mode is on. -/
theorem hub_discovery_partial_failure {ρ : Type} (h : Hub ρ) :
    h.handleToolsList = .ok ((h.manager.list).bind (fun u =>
      match u.session.listToolsR with
      | .error _ => []
      | .ok ts =>
        (ts.filter (fun t => h.engine.isToolAllowed u.id t.name)).map
          (fun t => if h.prefixEnabled then
            { t with name := encodePrefixed u.id t.name } else t))) := by
  unfold Hub.handleToolsList
  rw [hubListTools_foldl_eq]
  simp

theorem probe_cons {ρ : Type} (A : Upstream ρ → Bool)
    (C : Upstream ρ → Except GoError ρ) (fE : GoError → GoError) (nE : GoError)
    (u : Upstream ρ) (rest : List (Upstream ρ)) (acc : Option GoError) :
    probe A C fE nE (u :: rest) acc =
      (if A u then
        match C u with
        | .ok r => (.ok r, [u.id])
        | .error e =>
          let next := probe A C fE nE rest (some e)
          (next.1, u.id :: next.2)
      else probe A C fE nE rest acc) := rfl

theorem probe_spec {ρ : Type} (A : Upstream ρ → Bool)
    (C : Upstream ρ → Except GoError ρ) (fE : GoError → GoError) (nE : GoError) :
    ∀ (us : List (Upstream ρ)) (acc : Option GoError),
    (probe A C fE nE us acc).2 = attemptsUntilSuccess C (us.filter A) ∧
    (probe A C fE nE us acc).1 =
      (match firstOk C (us.filter A) with
       | some r => .ok r
       | none =>
         match lastErrAcc C (us.filter A) acc with
         | some e => .error (fE e)
         | none => .error nE) := by
  intro us
  induction us with
  | nil =>
    intro acc
    cases acc <;> exact ⟨rfl, rfl⟩
  | cons u rest ih =>
    intro acc
    by_cases hA : A u
    · rw [probe_cons, if_pos hA]
      have hf : (u :: rest).filter A = u :: rest.filter A := by
        simp [List.filter_cons, hA]
      rw [hf]
      cases hC : C u with
      | ok r =>
        constructor
        · simp [attemptsUntilSuccess, hC]
        · simp [firstOk, hC]
      | error e =>
        constructor
        · simp only []
          rw [attemptsUntilSuccess, hC]
          exact congrArg (List.cons u.id) (ih (some e)).1
        · simp only []
          rw [firstOk, lastErrAcc, hC]
          exact (ih (some e)).2
    · rw [probe_cons, if_neg hA]
      have hf : (u :: rest).filter A = rest.filter A := by
        simp [List.filter_cons, hA]
      rw [hf]
      exact ih acc

theorem attemptsUntilSuccess_mem {ρ : Type} (C : Upstream ρ → Except GoError ρ) :
    ∀ (l : List (Upstream ρ)) (sid : Str), sid ∈ attemptsUntilSuccess C l →
      ∃ u, u ∈ l ∧ u.id = sid := by
  intro l
  induction l with
  | nil =>
    intro sid hs
    simp [attemptsUntilSuccess] at hs
  | cons u rest ih =>
    intro sid hs
    rw [attemptsUntilSuccess] at hs
    cases hC : C u with
    | ok r =>
      rw [hC] at hs
      simp at hs
      exact ⟨u, List.mem_cons_self u rest, hs.symm⟩
    | error e =>
      rw [hC] at hs
      rcases List.mem_cons.mp hs with h1 | h2
      · exact ⟨u, List.mem_cons_self u rest, h1.symm⟩
      · obtain ⟨v, hv, hid⟩ := ih sid h2
        exact ⟨v, List.mem_cons_of_mem u hv, hid⟩

/-- C6: no-prefix invocation probes the registry in order and only where
the policy allows the full reference on that backend.  The contacted
backends are exactly the permitted ones up to the first success; the
result is the first permitted success, else the last permitted failure
wrapped in the call-failed error, else the distinct
not-found-or-not-allowed error; a denied backend is never contacted. -/
theorem noprefix_probe_routing {ρ : Type} (h : Hub ρ) (kind : Kind) (ref : Str)
    (hpre : h.prefixEnabled = false) :
    ((h.invoke kind ref).2
        = attemptsUntilSuccess (fun u => u.session.invokeR kind ref)
            ((h.manager.list).filter
              (fun u => h.engine.allowedFor kind u.id ref))) ∧
    (∀ sid ∈ (h.invoke kind ref).2, ∃ u, u ∈ h.manager.list ∧ u.id = sid ∧
        h.engine.allowedFor kind u.id ref = true) ∧
    ((h.invoke kind ref).1 =
      (match firstOk (fun u => u.session.invokeR kind ref)
          ((h.manager.list).filter
            (fun u => h.engine.allowedFor kind u.id ref)) with
       | some r => .ok r
       | none =>
         match lastErrAcc (fun u => u.session.invokeR kind ref)
             ((h.manager.list).filter
               (fun u => h.engine.allowedFor kind u.id ref)) none with
         | some e => .error (probeFailMsg kind ref e)
         | none => .error (probeNotFoundMsg kind ref))) := by
  have hnp : ¬ (h.prefixEnabled = true) := by
    rw [hpre]
    simp
  cases kind with
  | tools =>
    have hprobe := probe_spec (fun u => h.engine.isToolAllowed u.id ref)
      (fun u => u.session.callToolR ref) (probeFailMsg .tools ref)
      (probeNotFoundMsg .tools ref) h.manager.list none
    have hinv : h.invoke .tools ref
        = probe (fun u => h.engine.isToolAllowed u.id ref)
          (fun u => u.session.callToolR ref) (probeFailMsg .tools ref)
          (probeNotFoundMsg .tools ref) h.manager.list none := by
      show Hub.handleToolsCall h ref = _
      unfold Hub.handleToolsCall
      rw [if_neg hnp]
    rw [hinv]
    refine ⟨hprobe.1, ?_, hprobe.2⟩
    intro sid hs
    rw [hprobe.1] at hs
    obtain ⟨u, hu, hid⟩ := attemptsUntilSuccess_mem _ _ sid hs
    rw [List.mem_filter] at hu
    exact ⟨u, hu.1, hid, hu.2⟩
  | resources =>
    have hprobe := probe_spec (fun u => h.engine.isResourceAllowed u.id ref)
      (fun u => u.session.readResourceR ref) (probeFailMsg .resources ref)
      (probeNotFoundMsg .resources ref) h.manager.list none
    have hinv : h.invoke .resources ref
        = probe (fun u => h.engine.isResourceAllowed u.id ref)
          (fun u => u.session.readResourceR ref) (probeFailMsg .resources ref)
          (probeNotFoundMsg .resources ref) h.manager.list none := by
      show Hub.handleResourcesRead h ref = _
      unfold Hub.handleResourcesRead
      rw [if_neg hnp]
    rw [hinv]
    refine ⟨hprobe.1, ?_, hprobe.2⟩
    intro sid hs
    rw [hprobe.1] at hs
    obtain ⟨u, hu, hid⟩ := attemptsUntilSuccess_mem _ _ sid hs
    rw [List.mem_filter] at hu
    exact ⟨u, hu.1, hid, hu.2⟩
  | prompts =>
    have hprobe := probe_spec (fun u => h.engine.isPromptAllowed u.id ref)
      (fun u => u.session.getPromptR ref) (probeFailMsg .prompts ref)
      (probeNotFoundMsg .prompts ref) h.manager.list none
    have hinv : h.invoke .prompts ref
        = probe (fun u => h.engine.isPromptAllowed u.id ref)
          (fun u => u.session.getPromptR ref) (probeFailMsg .prompts ref)
          (probeNotFoundMsg .prompts ref) h.manager.list none := by
      show Hub.handlePromptsGet h ref = _
      unfold Hub.handlePromptsGet
      rw [if_neg hnp]
    rw [hinv]
    refine ⟨hprobe.1, ?_, hprobe.2⟩
    intro sid hs
    rw [hprobe.1] at hs
    obtain ⟨u, hu, hid⟩ := attemptsUntilSuccess_mem _ _ sid hs
    rw [List.mem_filter] at hu
    exact ⟨u, hu.1, hid, hu.2⟩

/-- Witness for C6: the spec scenario — `b1` and `b2` both expose `ping`,
the profile permits it only on `b2`; the call succeeds against `b2` and
`b1` is never contacted. -/
theorem noprefix_probe_routing_witness :
    hubNoPrefixEx.prefixEnabled = false ∧
    (hubNoPrefixEx.invoke Kind.tools ("ping".toList)).2 = ["b2".toList] ∧
    (hubNoPrefixEx.invoke Kind.tools ("ping".toList)).1 = Except.ok 7 := by
  refine ⟨rfl, ?_, ?_⟩
  · rw [(noprefix_probe_routing hubNoPrefixEx Kind.tools ("ping".toList) rfl).1]
    decide
  · rw [(noprefix_probe_routing hubNoPrefixEx Kind.tools ("ping".toList) rfl).2.2]
    decide

/-- C1: a capability the policy denies is never forwarded upstream, even
when the caller supplies its exact reference.  In prefix mode the hub
answers with an error and contacts no backend whenever the call-phase
policy check denies the decoded reference; the isolated proxy's single
policy check behaves the same for all three kinds. -/
theorem denied_capability_not_forwarded {ρ : Type} (h : Hub ρ) (p : Proxy ρ)
    (kind : Kind) (ref serverID remainder name : Str)
    (hpre : h.prefixEnabled = true)
    (hsplit : splitOnce ref [':'] = some (serverID, remainder))
    (hdeny : h.engine.allowedFor kind serverID remainder = false)
    (pdeny : p.engine.allowedFor kind p.upstreamName name = false) :
    (isErr (h.invoke kind ref).1 = true ∧ (h.invoke kind ref).2 = []) ∧
    (isErr (p.invoke kind name).1 = true ∧ (p.invoke kind name).2 = []) := by
  cases kind with
  | tools =>
    have hdeny' : h.engine.isToolAllowed serverID remainder = false := hdeny
    have pdeny' : p.engine.isToolAllowed p.upstreamName name = false := pdeny
    constructor
    · cases hg : h.manager.get serverID with
      | error e =>
        constructor <;>
          simp [Hub.invoke, Hub.handleToolsCall, hpre, hsplit, hg, isErr]
      | ok u =>
        constructor <;>
          simp [Hub.invoke, Hub.handleToolsCall, hpre, hsplit, hg, hdeny', isErr]
    · constructor <;> simp [Proxy.invoke, Proxy.handleCallTool, pdeny', isErr]
  | resources =>
    have hdeny' : h.engine.isResourceAllowed serverID remainder = false := hdeny
    have pdeny' : p.engine.isResourceAllowed p.upstreamName name = false := pdeny
    constructor
    · cases hg : h.manager.get serverID with
      | error e =>
        constructor <;>
          simp [Hub.invoke, Hub.handleResourcesRead, hpre, hsplit, hg, isErr]
      | ok u =>
        constructor <;>
          simp [Hub.invoke, Hub.handleResourcesRead, hpre, hsplit, hg, hdeny',
            isErr]
    · constructor <;> simp [Proxy.invoke, Proxy.handleReadResource, pdeny', isErr]
  | prompts =>
    have hdeny' : h.engine.isPromptAllowed serverID remainder = false := hdeny
    have pdeny' : p.engine.isPromptAllowed p.upstreamName name = false := pdeny
    constructor
    · cases hg : h.manager.get serverID with
      | error e =>
        constructor <;>
          simp [Hub.invoke, Hub.handlePromptsGet, hpre, hsplit, hg, isErr]
      | ok u =>
        constructor <;>
          simp [Hub.invoke, Hub.handlePromptsGet, hpre, hsplit, hg, hdeny', isErr]
    · constructor <;> simp [Proxy.invoke, Proxy.handleGetPrompt, pdeny', isErr]

/-- Witness for C1: profile `safe` permits only `read_file` on `fs`;
invoking `fs:write_file` through the prefix-mode hub and `write_file`
through the isolated proxy errors without contacting the backend. -/
theorem denied_capability_not_forwarded_witness :
    (isErr (hubPrefixEx.invoke Kind.tools ("fs:write_file".toList)).1 = true ∧
      (hubPrefixEx.invoke Kind.tools ("fs:write_file".toList)).2 = []) ∧
    (isErr (proxyFsEx.invoke Kind.tools ("write_file".toList)).1 = true ∧
      (proxyFsEx.invoke Kind.tools ("write_file".toList)).2 = []) :=
  denied_capability_not_forwarded hubPrefixEx proxyFsEx Kind.tools
    ("fs:write_file".toList) ("fs".toList) ("write_file".toList)
    ("write_file".toList) (by decide) (by decide) (by decide) (by decide)

/-- C7 counterexample: an upstream error on the isolated proxy's list
call is propagated as an error, not turned into an empty successful
result. -/
theorem proxy_discovery_error_cex :
    Proxy.handleListTools proxyListErrEx = .error ("upstream list failed".toList) ∧
    ¬ Proxy.handleListTools proxyListErrEx = .ok ([] : List Tool) := by
  constructor
  · rfl
  · decide

/-- C7 amended: the isolated proxy's discovery yields an empty successful
result when it has no upstream or no live session; an actual upstream
error on the list call is returned as an error, for each of the three
kinds. -/
theorem proxy_discovery_failure_amended {ρ : Type} (p : Proxy ρ) :
    (p.upstream = none → p.handleListTools = .ok [] ∧
      p.handleListResources = .ok [] ∧ p.handleListPrompts = .ok []) ∧
    (∀ u, p.upstream = some u → u.session = none → p.handleListTools = .ok [] ∧
      p.handleListResources = .ok [] ∧ p.handleListPrompts = .ok []) ∧
    (∀ u s, p.upstream = some u → u.session = some s →
      (∀ e, s.listToolsR = .error e → p.handleListTools = .error e) ∧
      (∀ e, s.listResourcesR = .error e → p.handleListResources = .error e) ∧
      (∀ e, s.listPromptsR = .error e → p.handleListPrompts = .error e)) := by
  refine ⟨?_, ?_, ?_⟩
  · intro hu
    refine ⟨?_, ?_, ?_⟩ <;>
      simp [Proxy.handleListTools, Proxy.handleListResources,
        Proxy.handleListPrompts, hu]
  · intro u hu hs
    refine ⟨?_, ?_, ?_⟩ <;>
      simp [Proxy.handleListTools, Proxy.handleListResources,
        Proxy.handleListPrompts, hu, hs]
  · intro u s hu hs
    refine ⟨?_, ?_, ?_⟩ <;> intro e he <;>
      simp [Proxy.handleListTools, Proxy.handleListResources,
        Proxy.handleListPrompts, hu, hs, he]

/-- Witness for the amended C7: a proxy without an upstream lists empty
with success, and one whose upstream list call fails surfaces the
error. -/
theorem proxy_discovery_failure_amended_witness :
    Proxy.handleListTools proxyNilEx = .ok [] ∧
    Proxy.handleListTools proxyListErrEx
      = .error ("upstream list failed".toList) := by
  constructor
  · exact ((proxy_discovery_failure_amended proxyNilEx).1 rfl).1
  · exact (((proxy_discovery_failure_amended proxyListErrEx).2.2
      { session := some sessionDead } sessionDead rfl rfl).1
      ("upstream list failed".toList) rfl)

/-- C9: a second `Connect` for an already-registered backend id is a hard
error that neither replaces nor disturbs the existing connection: the
registry is unchanged and the first connection stays reachable through
`Get` and `List`. -/
theorem connect_duplicate_id {ρ : Type} (m : Manager ρ) (serverID : Str)
    (u : Upstream ρ) (serverCfg : ServerConfig)
    (establish : Transport → Except GoError (Session ρ))
    (h : lookup m.upstreams serverID = some u) :
    (m.connect serverID serverCfg establish).1 = m ∧
    ((m.connect serverID serverCfg establish).2).isSome = true ∧
    ((m.connect serverID serverCfg establish).1).get serverID = .ok u ∧
    ((m.connect serverID serverCfg establish).1).list = m.list := by
  unfold Manager.connect
  rw [h]
  refine ⟨rfl, rfl, ?_, rfl⟩
  unfold Manager.get
  rw [h]

/-- Witness for C9 on a one-backend registry. -/
theorem connect_duplicate_id_witness :
    (mgrEx.connect ("b1".toList) stdioCfgEx estEx).1 = mgrEx ∧
    ((mgrEx.connect ("b1".toList) stdioCfgEx estEx).2).isSome = true ∧
    ((mgrEx.connect ("b1".toList) stdioCfgEx estEx).1).get ("b1".toList)
        = .ok upstreamB1 ∧
    ((mgrEx.connect ("b1".toList) stdioCfgEx estEx).1).list = mgrEx.list :=
  connect_duplicate_id mgrEx ("b1".toList) upstreamB1 stdioCfgEx estEx (by rfl)

/-- C8 (code bug): the connection manager's http transport drops the
configured static headers.  At a backend configured with one header,
`createHTTPTransport` builds the transport with an empty injected-header
set (its TODO comment acknowledges the gap), while the alternate upstream
implementation's `headerTransport` decorator injects exactly the
configured headers, as the spec describes. -/
theorem http_headers_not_injected :
    createHTTPTransport httpCfgEx
        = .ok (Transport.http ("https://mcp-github.internal/mcp".toList) []) ∧
    ¬ httpCfgEx.transport.headers = [] ∧
    connectTransportAlt httpCfgEx
        = .ok (Transport.http ("https://mcp-github.internal/mcp".toList)
            httpCfgEx.transport.headers) := by
  refine ⟨by decide, by decide, by decide⟩

end Mcp2
